import Mathlib

/-!
Shallow embedding of the MutualInfluenceAI experiment harness.

Sources embedded:
- `mutual_influence_agents.py`: `temperature_from_mu`, `lambda_from_mu`,
  `MutualInfluenceAssistant.receive_feedback` / `.mu` / `.call`;
- `metrics.py`: `safe_json_loads`, `extract_features_from_json`, `jaccard`,
  `canonical_overlap` and the `_CANON_TAGS` vocabulary;
- `run_grid.py`: the `revd` revision-depth metric of `one_pass`;
- `run_grid_parallel.py`: the resume filter of `main`.

Python floats are modelled by exact rationals (`ℚ`); the one transcendental
function (`exp` in `lambda_from_mu`) is modelled over the reals.  Python sets
of strings are `Finset String`; the Python dict `peer_scores` is an
association list with first-match lookup and replace-or-append update, which
matches dict semantics when keys are unique (as they are for every state the
program constructs).
-/

namespace MutualInfluence

/-! ## InfluenceModel (`mutual_influence_agents.py`, lines 33-38) -/

/-- `temperature_from_mu(mu, T0=0.7, alpha=0.8)`:
`T = T0 / (1.0 + alpha * max(0.0, mu)); return max(0.1, min(1.5, T))`. -/
def temperature_from_mu (mu T0 alpha : ℚ) : ℚ :=
  let T := T0 / (1 + alpha * max 0 mu)
  max (1/10) (min (3/2) T)

/-- `lambda_from_mu(mu, k=6.0, tau=0.5) = 1.0 / (1.0 + exp(-k * (mu - tau)))`. -/
noncomputable def lambda_from_mu (mu k tau : ℝ) : ℝ :=
  1 / (1 + Real.exp (-(k * (mu - tau))))

/-- Clamp written the way the spec states it: `clamp(x, lo, hi)`. -/
def clampQ (x lo hi : ℚ) : ℚ := max lo (min hi x)

/-! ## PeerTrustTracker (`mutual_influence_agents.py`, lines 40-66)

Only the trust state of `MutualInfluenceAssistant` is relevant: the
configured `prior` and the `peer_scores` dict. -/

/-- Trust state of one agent: `self.prior` and `self.peer_scores`. -/
structure Tracker where
  prior : ℚ
  peer_scores : List (String × ℚ)
  deriving DecidableEq, Repr

/-- `self.peer_scores.get(from_peer)`: first-match lookup in the dict. -/
def lookupScore (p : String) (l : List (String × ℚ)) : Option ℚ :=
  (l.find? (fun kv => kv.1 = p)).map (fun kv => kv.2)

/-- `self.peer_scores[from_peer] = v`: replace the existing entry or append. -/
def setScore (p : String) (v : ℚ) : List (String × ℚ) → List (String × ℚ)
  | [] => [(p, v)]
  | (q, w) :: rest =>
      if q = p then (q, v) :: rest else (q, w) :: setScore p v rest

/-- `self.peer_scores.values()`. -/
def scoreValues (l : List (String × ℚ)) : List ℚ := l.map (fun kv => kv.2)

/-- `max(0.0, min(1.0, float(score)))` — the clamp inside `receive_feedback`. -/
def clamp01 (s : ℚ) : ℚ := max 0 (min 1 s)

/-- `receive_feedback(from_peer, score, beta)`:
`old = self.peer_scores.get(from_peer, self.prior)`;
`score = max(0.0, min(1.0, float(score)))`;
`self.peer_scores[from_peer] = (1.0 - beta) * old + beta * score`. -/
def receive_feedback (st : Tracker) (from_peer : String) (score beta : ℚ) :
    Tracker :=
  let old := (lookupScore from_peer st.peer_scores).getD st.prior
  let s := clamp01 score
  { st with peer_scores := setScore from_peer ((1 - beta) * old + beta * s) st.peer_scores }

/-- `mu`: `sum(self.peer_scores.values())/len(self.peer_scores)` if nonempty
else `0.0`. -/
def mu (st : Tracker) : ℚ :=
  if st.peer_scores.isEmpty then 0
  else (scoreValues st.peer_scores).sum / (st.peer_scores.length : ℚ)

/-- A sequence of `receive_feedback` calls, each `(from_peer, score, beta)`. -/
def applyFeedbacks (st : Tracker) (calls : List (String × ℚ × ℚ)) : Tracker :=
  calls.foldl (fun s c => receive_feedback s c.1 c.2.1 c.2.2) st

/-! ## MetricsEngine set scores (`metrics.py`, lines 112-117) -/

/-- `jaccard(a, b)`: `None` if both empty, else
`0.0 if len(a|b) == 0 else len(a&b)/len(a|b)`. -/
def jaccard (a b : Finset String) : Option ℚ :=
  if a = ∅ ∧ b = ∅ then none
  else
    let denom := (a ∪ b).card
    some (if denom = 0 then 0 else ((a ∩ b).card : ℚ) / (denom : ℚ))

/-! ## Revision depth (`run_grid.py`, line 221)

`revd = len((PF2 | RF2) - (PF1 | RF1))`, computed from the four extracted
feature sets. -/

/-- `revd`: features of the round-2 combined set absent from round 1. -/
def revd (PF1 RF1 PF2 RF2 : Finset String) : ℕ :=
  ((PF2 ∪ RF2) \ (PF1 ∪ RF1)).card

/-- The value the spec describes: size of the symmetric difference of the two
combined feature sets.  Stated from the spec's words for comparison with
`revd`. -/
def revdSymmSpec (PF1 RF1 PF2 RF2 : Finset String) : ℕ :=
  (((PF1 ∪ RF1) \ (PF2 ∪ RF2)) ∪ ((PF2 ∪ RF2) \ (PF1 ∪ RF1))).card

/-! ## Sweep resume filter (`run_grid_parallel.py`, lines 174-180)

`todo = [p for p in tasks if (p[0], p[1], p[2], p[3], p[4], p[5]) not in done]`
where `done` is the set of `(beta, k, tau, alpha, seed, adversarial)` tuples
read back from the CSV store by `read_done_keys`. -/

/-- One parameter tuple `(beta, k, tau, alpha, seed, adversarial)`. -/
abbrev SweepKey := ℚ × ℚ × ℚ × ℚ × ℤ × Bool

/-- The filter in `main`: keep the tasks whose key is not already done. -/
def todoTasks (tasks : List SweepKey) (done : Finset SweepKey) : List SweepKey :=
  tasks.filter (fun p => p ∉ done)

/-! ## JSON values and `json.loads` (`metrics.py`, lines 29-34)

`safe_json_loads` wraps Python's `json.loads`.  We embed the strict JSON
grammar it implements: values are objects, arrays, strings (with the standard
escapes; surrogate-pair combination is not modelled, no embedded input uses
it), numbers, `true`, `false`, `null`; parsing is total via an explicit fuel
argument.  A number records whether Python would parse it as `int` or as
`float`, because `str(x)` differs between the two. -/

inductive JVal where
  | jnull : JVal
  | jbool : Bool → JVal
  | jnum : ℚ → Bool → JVal
  | jstr : String → JVal
  | jarr : List JVal → JVal
  | jobj : List (String × JVal) → JVal

/-- JSON whitespace. -/
def skipWs : List Char → List Char
  | c :: cs => if c = ' ' ∨ c = '\t' ∨ c = '\n' ∨ c = '\r' then skipWs cs else c :: cs
  | [] => []

def hexVal (c : Char) : Option Nat :=
  if '0' ≤ c ∧ c ≤ '9' then some (c.toNat - '0'.toNat)
  else if 'a' ≤ c ∧ c ≤ 'f' then some (c.toNat - 'a'.toNat + 10)
  else if 'A' ≤ c ∧ c ≤ 'F' then some (c.toNat - 'A'.toNat + 10)
  else none

/-- Body of a JSON string after its opening quote: returns the decoded
characters and the input after the closing quote.  Strict mode: raw control
characters are rejected. -/
def strBody : Nat → List Char → Option (List Char × List Char)
  | 0, _ => none
  | _, [] => none
  | fuel+1, c :: cs =>
    if c = '"' then some ([], cs)
    else if c = '\\' then
      match cs with
      | [] => none
      | e :: cs' =>
        let esc : Option (Char × List Char) :=
          if e = '"' then some ('"', cs')
          else if e = '\\' then some ('\\', cs')
          else if e = '/' then some ('/', cs')
          else if e = 'b' then some (Char.ofNat 8, cs')
          else if e = 'f' then some (Char.ofNat 12, cs')
          else if e = 'n' then some ('\n', cs')
          else if e = 'r' then some ('\r', cs')
          else if e = 't' then some ('\t', cs')
          else if e = 'u' then
            match cs' with
            | h1 :: h2 :: h3 :: h4 :: cs2 =>
              match hexVal h1, hexVal h2, hexVal h3, hexVal h4 with
              | some a, some b, some c2, some d =>
                  some (Char.ofNat (((a * 16 + b) * 16 + c2) * 16 + d), cs2)
              | _, _, _, _ => none
            | _ => none
          else none
        match esc with
        | some (ch, rest) =>
          match strBody fuel rest with
          | some (out, rem) => some (ch :: out, rem)
          | none => none
        | none => none
    else if c.toNat < 32 then none
    else
      match strBody fuel cs with
      | some (out, rem) => some (c :: out, rem)
      | none => none

def isDigit (c : Char) : Bool := '0' ≤ c ∧ c ≤ '9'

def digitsToNat (ds : List Char) : ℕ :=
  ds.foldl (fun n c => 10 * n + (c.toNat - '0'.toNat)) 0

/-- A JSON number: `-? int frac? exp?`, with the leading-zero restriction;
`int` if neither fraction nor exponent is present, else `float`. -/
def parseNum (cs : List Char) : Option (JVal × List Char) :=
  let (neg, cs1) := match cs with
    | '-' :: rest => (true, rest)
    | _ => (false, cs)
  let intDigits := cs1.takeWhile (fun c => isDigit c)
  let cs2 := cs1.dropWhile (fun c => isDigit c)
  if intDigits = [] then none
  else if 1 < intDigits.length ∧ intDigits.head? = some '0' then none
  else
    let ipart : ℚ := (digitsToNat intDigits : ℚ)
    let fracStep : Bool × ℚ × Bool × List Char :=
      match cs2 with
      | '.' :: rest =>
        let fd := rest.takeWhile (fun c => isDigit c)
        let rest2 := rest.dropWhile (fun c => isDigit c)
        if fd = [] then (false, 0, true, rest2)
        else (true, (digitsToNat fd : ℚ) / ((10 : ℚ) ^ fd.length), true, rest2)
      | _ => (true, 0, false, cs2)
    match fracStep with
    | (fOk, fval, isF1, cs3) =>
      if !fOk then none
      else
        let expStep : Bool × ℤ × Bool × List Char :=
          match cs3 with
          | e :: rest =>
            if e = 'e' ∨ e = 'E' then
              let (esign, rest2) := match rest with
                | '-' :: r => ((-1 : ℤ), r)
                | '+' :: r => ((1 : ℤ), r)
                | _ => ((1 : ℤ), rest)
              let ed := rest2.takeWhile (fun c => isDigit c)
              let rest3 := rest2.dropWhile (fun c => isDigit c)
              if ed = [] then (false, 0, true, rest3)
              else (true, esign * (digitsToNat ed : ℤ), true, rest3)
            else (true, 0, false, cs3)
          | [] => (true, 0, false, cs3)
        match expStep with
        | (eOk, eexp, isF2, cs4) =>
          if !eOk then none
          else
            let mag : ℚ := (ipart + fval) * (10 : ℚ) ^ eexp
            some (JVal.jnum (if neg then -mag else mag) (isF1 || isF2), cs4)

/-- Match a literal keyword tail (`rue`, `alse`, `ull`). -/
def dropLit : List Char → List Char → Option (List Char)
  | [], cs => some cs
  | l :: ls, c :: cs => if c = l then dropLit ls cs else none
  | _ :: _, [] => none

mutual

def parseVal : Nat → List Char → Option (JVal × List Char)
  | 0, _ => none
  | fuel+1, cs =>
    match skipWs cs with
    | [] => none
    | c :: cs' =>
      if c = '{' then
        match skipWs cs' with
        | '}' :: rest => some (JVal.jobj [], rest)
        | cs2 => parseMembers fuel cs2 []
      else if c = '[' then
        match skipWs cs' with
        | ']' :: rest => some (JVal.jarr [], rest)
        | cs2 => parseElems fuel cs2 []
      else if c = '"' then
        match strBody (cs'.length + 1) cs' with
        | some (out, rem) => some (JVal.jstr (String.mk out), rem)
        | none => none
      else if c = 't' then
        match dropLit ['r', 'u', 'e'] cs' with
        | some rest => some (JVal.jbool true, rest)
        | none => none
      else if c = 'f' then
        match dropLit ['a', 'l', 's', 'e'] cs' with
        | some rest => some (JVal.jbool false, rest)
        | none => none
      else if c = 'n' then
        match dropLit ['u', 'l', 'l'] cs' with
        | some rest => some (JVal.jnull, rest)
        | none => none
      else if c = '-' ∨ isDigit c then parseNum (c :: cs')
      else none

def parseMembers : Nat → List Char → List (String × JVal) →
    Option (JVal × List Char)
  | 0, _, _ => none
  | fuel+1, cs, acc =>
    match skipWs cs with
    | '"' :: cs' =>
      match strBody (cs'.length + 1) cs' with
      | some (key, cs2) =>
        match skipWs cs2 with
        | ':' :: cs3 =>
          match parseVal fuel cs3 with
          | some (v, cs4) =>
            match skipWs cs4 with
            | ',' :: cs5 => parseMembers fuel cs5 (acc ++ [(String.mk key, v)])
            | '}' :: cs5 => some (JVal.jobj (acc ++ [(String.mk key, v)]), cs5)
            | _ => none
          | none => none
        | _ => none
      | none => none
    | _ => none

def parseElems : Nat → List Char → List JVal → Option (JVal × List Char)
  | 0, _, _ => none
  | fuel+1, cs, acc =>
    match parseVal fuel cs with
    | some (v, cs2) =>
      match skipWs cs2 with
      | ',' :: cs3 => parseElems fuel cs3 (acc ++ [v])
      | ']' :: cs3 => some (JVal.jarr (acc ++ [v]), cs3)
      | _ => none
    | none => none

end

/-- `safe_json_loads(s)`: `json.loads` wrapped to return `None` on any
error; trailing whitespace is allowed, trailing garbage is an error. -/
def safe_json_loads (s : String) : Option JVal :=
  match parseVal (2 * s.length + 2) s.data with
  | some (v, rest) => if skipWs rest = [] then some v else none
  | none => none

/-! ## Python string helpers used by `extract_features_from_json` -/

/-- Python `str.lower()` (the embedded inputs are ASCII). -/
def pyLower (s : String) : String := String.mk (s.data.map Char.toLower)

/-- Python whitespace for `split`/`strip` (ASCII portion). -/
def isWs (c : Char) : Bool :=
  c = ' ' ∨ c = '\t' ∨ c = '\n' ∨ c = '\r' ∨ c = '\x0b' ∨ c = '\x0c'

/-- Maximal runs of characters satisfying `keep`; everything else separates
runs.  `cur` is the current run, reversed. -/
def splitRunsAux (keep : Char → Bool) : List Char → List Char → List String
  | [], cur => if cur = [] then [] else [String.mk cur.reverse]
  | c :: cs, cur =>
    if keep c then splitRunsAux keep cs (c :: cur)
    else if cur = [] then splitRunsAux keep cs []
    else String.mk cur.reverse :: splitRunsAux keep cs []

/-- Python `s.split()` with no argument: split on whitespace runs, no empty
fields. -/
def pySplit (s : String) : List String :=
  splitRunsAux (fun c => !isWs c) s.data []

/-- The normalizer `norm = lambda x: " ".join(str(x).lower().split())`. -/
def pyNorm (s : String) : String := String.intercalate " " (pySplit (pyLower s))

/-- Truthiness of Python `s.strip()`: `s` has a non-whitespace character. -/
def pyStripNonempty (s : String) : Bool := s.data.any (fun c => !isWs c)

/-- Least `k` with `q * 10^k` integral, found by repeated multiplication. -/
def decExpAux : Nat → ℚ → Option Nat
  | 0, _ => none
  | fuel+1, q =>
    if q.den = 1 then some 0
    else
      match decExpAux fuel (q * 10) with
      | some k => some (k + 1)
      | none => none

/-- Python `str` of a float, for values printed in plain decimal form
(Python switches to scientific notation for very large or very small
magnitudes; no embedded input exercises that). -/
def pyFloatStr (q : ℚ) : String :=
  let sign := if q < 0 then "-" else ""
  let aq := |q|
  match decExpAux 1200 aq with
  | some 0 => sign ++ toString aq.num ++ ".0"
  | some k =>
      let n := (aq * (10 : ℚ) ^ (k : ℕ)).num.toNat
      let ds0 := toString n
      let ds := String.mk (List.replicate (k + 1 - ds0.length) '0') ++ ds0
      sign ++ ds.take (ds.length - k) ++ "." ++ ds.drop (ds.length - k)
  | none => sign ++ toString aq.num ++ "/" ++ toString aq.den

/-- Python `str(x)` for scalar JSON values — `str`, `int`, `float` and
`bool` (a subclass of `int`, so `isinstance(x, (str, int, float))` accepts
it); `none` for `null`, arrays and objects, which the filter rejects. -/
def pyScalarStr : JVal → Option String
  | JVal.jstr s => some s
  | JVal.jbool b => some (if b then "True" else "False")
  | JVal.jnum q false => some (toString q.num)
  | JVal.jnum q true => some (pyFloatStr q)
  | _ => none

/-- `d.get(key, default)` on a dict built by `json.loads`: with duplicate
keys in the source text, the last occurrence wins. -/
def pyGet (kvs : List (String × JVal)) (key : String) (dflt : JVal) : JVal :=
  ((kvs.reverse.find? (fun kv => kv.1 = key)).map (fun kv => kv.2)).getD dflt

/-- Python `key in d`. -/
def pyHasKey (kvs : List (String × JVal)) (key : String) : Bool :=
  kvs.any (fun kv => kv.1 = key)

/-! ## `extract_features_from_json` (`metrics.py`, lines 36-48) -/

/-- Body of the set comprehension: keep `x` when it is a scalar whose
`str(x).strip()` is nonempty, yielding `norm(x)`. -/
def featNorm (x : JVal) : Option String :=
  match pyScalarStr x with
  | some s => if pyStripNonempty s then some (pyNorm s) else none
  | none => none

/-- `extract_features_from_json(s)`: parse, require a dict, take
`d.get("features", [])`, require a list, return the normalized scalar
entries as a set. -/
def extract_features_from_json (s : String) : Finset String :=
  match safe_json_loads s with
  | some (JVal.jobj kvs) =>
    match pyGet kvs "features" (JVal.jarr []) with
    | JVal.jarr xs => (xs.filterMap featNorm).toFinset
    | _ => ∅
  | _ => ∅

/-! ## The `call` retry skeleton (`mutual_influence_agents.py`, lines 90-112)

The external service is a black box; its two possible replies are supplied
as arguments (`resp1` for the initial request, `resp2` for the repair
request, consumed only if the repair is issued). -/

/-- `isinstance(d, dict) and k in d` (line 95). -/
def isObjWithKey (d : Option JVal) (k : String) : Bool :=
  match d with
  | some (JVal.jobj kvs) => pyHasKey kvs k
  | _ => false

/-- The request/repair control flow of `call`: returns the replies consumed
(one per request issued, in order) and the final text returned. -/
def callModel (require_keys : List String) (resp1 resp2 : String) :
    List String × String :=
  if require_keys.isEmpty then ([resp1], resp1)
  else
    let d := safe_json_loads resp1
    let missing := require_keys.filter (fun k => !(isObjWithKey d k))
    if missing.isEmpty then ([resp1], resp1)
    else ([resp1, resp2], resp2)

/-! ## `canonical_overlap` (`metrics.py`, lines 73-92) -/

/-- `_CANON_TAGS`. -/
def canonTags : List String :=
  ["duration", "bytes", "packets", "src_ip", "dst_ip", "src_port", "dst_port",
   "protocol", "flags", "entropy", "dns", "http", "tls", "ja3", "user_agent",
   "flow_count", "rate", "iat", "window", "payload_len"]

/-- The character class of `re.findall(r"[a-z0-9_]+", t)`. -/
def isWordTok (c : Char) : Bool :=
  ('a' ≤ c ∧ c ≤ 'z') ∨ ('0' ≤ c ∧ c ≤ '9') ∨ c = '_'

/-- `to_tags(t)`: lowercase, the word-character runs as a set, filtered to
the canonical vocabulary. -/
def to_tags (t : String) : Finset String :=
  ((splitRunsAux isWordTok (pyLower t).data []).filter
    (fun tok => tok ∈ canonTags)).toFinset

/-- `canonical_overlap(text_a, text_b)`: `None` if both tag sets are empty,
else their Jaccard score. -/
def canonical_overlap (text_a text_b : String) : Option ℚ :=
  let A := to_tags text_a
  let B := to_tags text_b
  if A = ∅ ∧ B = ∅ then none
  else
    let denom := (A ∪ B).card
    some (if denom = 0 then 0 else ((A ∩ B).card : ℚ) / (denom : ℚ))

/-! ## Helper lemmas -/

theorem lookupScore_setScore_self (p : String) (v : ℚ) (l : List (String × ℚ)) :
    lookupScore p (setScore p v l) = some v := by
  induction l with
  | nil => simp [lookupScore, setScore]
  | cons kv rest ih =>
    obtain ⟨q, w⟩ := kv
    by_cases h : q = p
    · simp [lookupScore, setScore, h, List.find?]
    · simpa [lookupScore, setScore, h, List.find?] using ih

theorem setScore_of_lookup_eq (p : String) (v : ℚ) (l : List (String × ℚ))
    (h : lookupScore p l = some v) : setScore p v l = l := by
  induction l with
  | nil => simp [lookupScore] at h
  | cons kv rest ih =>
    obtain ⟨q, w⟩ := kv
    by_cases hq : q = p
    · simp [lookupScore, List.find?, hq] at h
      simp [setScore, hq, h]
    · simp [lookupScore, List.find?, hq] at h
      simpa [setScore, hq] using ih (by simpa [lookupScore] using h)

theorem mem_scoreValues_setScore {v : ℚ} (p : String) (x : ℚ)
    (l : List (String × ℚ)) (h : v ∈ scoreValues (setScore p x l)) :
    v = x ∨ v ∈ scoreValues l := by
  induction l with
  | nil => simpa [scoreValues, setScore] using h
  | cons kv rest ih =>
    obtain ⟨q, w⟩ := kv
    by_cases hq : q = p
    · rcases (by simpa [scoreValues, setScore, hq] using h) with h1 | h1
      · exact Or.inl h1
      · exact Or.inr (by simp [scoreValues]; right; simpa [scoreValues] using h1)
    · rcases (by simpa [scoreValues, setScore, hq] using h) with h1 | h1
      · exact Or.inr (by simp [scoreValues, h1])
      · rcases ih (by simpa [scoreValues] using h1) with h2 | h2
        · exact Or.inl h2
        · exact Or.inr (by simp [scoreValues] at h2 ⊢; tauto)

theorem lookupScore_mem_values {p : String} {v : ℚ} {l : List (String × ℚ)}
    (h : lookupScore p l = some v) : v ∈ scoreValues l := by
  unfold lookupScore at h
  rcases hf : l.find? (fun kv => kv.1 = p) with _ | kv
  · simp [hf] at h
  · have hm := List.mem_of_find?_eq_some hf
    simp [hf] at h
    exact h ▸ List.mem_map.mpr ⟨kv, hm, rfl⟩

theorem clamp01_bounds (s : ℚ) : 0 ≤ clamp01 s ∧ clamp01 s ≤ 1 :=
  ⟨le_max_left 0 _, max_le (by norm_num) (min_le_left 1 s)⟩

theorem receive_feedback_preserves (st : Tracker) (p : String) (s β : ℚ)
    (hp0 : 0 ≤ st.prior) (hp1 : st.prior ≤ 1)
    (hv : ∀ v ∈ scoreValues st.peer_scores, 0 ≤ v ∧ v ≤ 1)
    (hβ0 : 0 ≤ β) (hβ1 : β ≤ 1) :
    (receive_feedback st p s β).prior = st.prior ∧
      ∀ v ∈ scoreValues (receive_feedback st p s β).peer_scores, 0 ≤ v ∧ v ≤ 1 := by
  constructor
  · rfl
  · intro v hvmem
    have hold : 0 ≤ (lookupScore p st.peer_scores).getD st.prior ∧
        (lookupScore p st.peer_scores).getD st.prior ≤ 1 := by
      rcases hl : lookupScore p st.peer_scores with _ | w
      · simpa using ⟨hp0, hp1⟩
      · simpa using hv w (lookupScore_mem_values hl)
    have hc := clamp01_bounds s
    have hnew : 0 ≤ (1 - β) * ((lookupScore p st.peer_scores).getD st.prior) + β * clamp01 s ∧
        (1 - β) * ((lookupScore p st.peer_scores).getD st.prior) + β * clamp01 s ≤ 1 := by
      constructor
      · have h1 := mul_nonneg (by linarith : (0:ℚ) ≤ 1 - β) hold.1
        have h2 := mul_nonneg hβ0 hc.1
        linarith
      · have h1 := mul_le_mul_of_nonneg_left hold.2 (by linarith : (0:ℚ) ≤ 1 - β)
        have h2 := mul_le_mul_of_nonneg_left hc.2 hβ0
        linarith
    rcases mem_scoreValues_setScore p _ st.peer_scores
        (by simpa [receive_feedback] using hvmem) with h | h
    · exact h ▸ hnew
    · exact hv v h

theorem sum_bounds_of_unit (l : List ℚ) (h : ∀ v ∈ l, 0 ≤ v ∧ v ≤ 1) :
    0 ≤ l.sum ∧ l.sum ≤ (l.length : ℚ) := by
  induction l with
  | nil => simp
  | cons a rest ih =>
    have ha := h a (List.mem_cons_self a rest)
    have ih' := ih (fun v hv => h v (List.mem_cons_of_mem a hv))
    constructor
    · simp only [List.sum_cons]; linarith
    · simp only [List.sum_cons, List.length_cons]
      push_cast
      linarith

theorem mu_bounds (st : Tracker)
    (hv : ∀ v ∈ scoreValues st.peer_scores, 0 ≤ v ∧ v ≤ 1) :
    0 ≤ mu st ∧ mu st ≤ 1 := by
  unfold mu
  by_cases he : st.peer_scores.isEmpty
  · simp [he]
  · have hef : st.peer_scores.isEmpty = false := by simpa using he
    simp only [hef, Bool.false_eq_true, if_false]
    have hlen : 0 < st.peer_scores.length := by
      cases hps : st.peer_scores with
      | nil => simp [hps] at he
      | cons a l => simp [hps]
    have hsum := sum_bounds_of_unit (scoreValues st.peer_scores) hv
    have hlenv : (scoreValues st.peer_scores).length = st.peer_scores.length := by
      simp [scoreValues]
    have hlenQ : (0:ℚ) < (st.peer_scores.length : ℚ) := by exact_mod_cast hlen
    constructor
    · exact div_nonneg hsum.1 (le_of_lt hlenQ)
    · rw [div_le_one hlenQ]
      calc (scoreValues st.peer_scores).sum
          ≤ ((scoreValues st.peer_scores).length : ℚ) := hsum.2
        _ = (st.peer_scores.length : ℚ) := by rw [hlenv]

theorem applyFeedbacks_preserves (calls : List (String × ℚ × ℚ)) (st : Tracker)
    (hp0 : 0 ≤ st.prior) (hp1 : st.prior ≤ 1)
    (hv : ∀ v ∈ scoreValues st.peer_scores, 0 ≤ v ∧ v ≤ 1)
    (hβ : ∀ c ∈ calls, 0 ≤ c.2.2 ∧ c.2.2 ≤ 1) :
    (applyFeedbacks st calls).prior = st.prior ∧
      ∀ v ∈ scoreValues (applyFeedbacks st calls).peer_scores, 0 ≤ v ∧ v ≤ 1 := by
  induction calls generalizing st with
  | nil => exact ⟨rfl, hv⟩
  | cons c rest ih =>
    have hc := hβ c (List.mem_cons_self c rest)
    have hstep := receive_feedback_preserves st c.1 c.2.1 c.2.2 hp0 hp1 hv hc.1 hc.2
    have ih' := ih (receive_feedback st c.1 c.2.1 c.2.2)
      (hstep.1 ▸ hp0) (hstep.1 ▸ hp1) hstep.2
      (fun d hd => hβ d (List.mem_cons_of_mem c hd))
    exact ⟨by simpa [applyFeedbacks] using ih'.1.trans hstep.1,
      by simpa [applyFeedbacks] using ih'.2⟩

/-! ## Claim theorems -/

/-- C10: for every `mu`, `temperature_from_mu mu T0 alpha` equals
`clamp(T0 / (1 + alpha * max(0, mu)), 0.1, 1.5)`; for nonnegative `T0` and
`alpha` it is non-increasing in `mu` on `mu ≥ 0`; negative `mu` is treated
as `0`; the result always lies in `[0.1, 1.5]`; and
`temperature_from_mu 0 0.7 0.8 = 0.7`, `temperature_from_mu 1 0.7 0.8 = 7/18`. -/
theorem temperature_from_mu_spec (m m1 m2 T0 alpha : ℚ)
    (hT0 : 0 ≤ T0) (ha : 0 ≤ alpha) (h1 : 0 ≤ m1) (h12 : m1 ≤ m2) :
    temperature_from_mu m T0 alpha = clampQ (T0 / (1 + alpha * max 0 m)) (1/10) (3/2)
    ∧ temperature_from_mu m2 T0 alpha ≤ temperature_from_mu m1 T0 alpha
    ∧ (m ≤ 0 → temperature_from_mu m T0 alpha = temperature_from_mu 0 T0 alpha)
    ∧ 1/10 ≤ temperature_from_mu m T0 alpha
    ∧ temperature_from_mu m T0 alpha ≤ 3/2
    ∧ temperature_from_mu 0 (7/10) (4/5) = 7/10
    ∧ temperature_from_mu 1 (7/10) (4/5) = 7/18 := by
  refine ⟨rfl, ?_, ?_, le_max_left _ _, max_le (by norm_num) (min_le_left _ _), ?_, ?_⟩
  · have e1 : max 0 m1 = m1 := max_eq_right h1
    have e2 : max 0 m2 = m2 := max_eq_right (h1.trans h12)
    have hd1 : (0:ℚ) < 1 + alpha * m1 := by nlinarith
    have hd12 : 1 + alpha * m1 ≤ 1 + alpha * m2 := by nlinarith
    have hdiv : T0 / (1 + alpha * max 0 m2) ≤ T0 / (1 + alpha * max 0 m1) := by
      rw [e1, e2]
      gcongr
    exact max_le_max (le_refl _) (min_le_min (le_refl _) hdiv)
  · intro hm
    have : max 0 m = 0 := max_eq_left hm
    simp [temperature_from_mu, this]
  · norm_num [temperature_from_mu]
  · norm_num [temperature_from_mu]

/-- Witness for C10 at `m = 1`, `m1 = 0`, `m2 = 1`, `T0 = 0.7`,
`alpha = 0.8`. -/
theorem temperature_from_mu_spec_witness :
    (0:ℚ) ≤ 7/10 ∧ (0:ℚ) ≤ 4/5 ∧ (0:ℚ) ≤ 0 ∧ (0:ℚ) ≤ 1 ∧
      temperature_from_mu 1 (7/10) (4/5) ≤ temperature_from_mu 0 (7/10) (4/5) :=
  ⟨by norm_num, by norm_num, le_refl 0, by norm_num,
    (temperature_from_mu_spec 1 0 1 (7/10) (4/5) (by norm_num) (by norm_num)
      (le_refl 0) (by norm_num)).2.1⟩

/-- C8: `lambda_from_mu mu k tau = 1 / (1 + exp (-k * (mu - tau)))`, equals
exactly `1/2` at `mu = tau` for any `k`, and always lies strictly between
`0` and `1` (real-valued model of the float computation). -/
theorem lambda_from_mu_spec (m k tau : ℝ) :
    lambda_from_mu m k tau = 1 / (1 + Real.exp (-(k * (m - tau))))
    ∧ lambda_from_mu tau k tau = 1 / 2
    ∧ 0 < lambda_from_mu m k tau
    ∧ lambda_from_mu m k tau < 1 := by
  refine ⟨rfl, ?_, ?_, ?_⟩
  · simp [lambda_from_mu]
    norm_num
  · have h := Real.exp_pos (-(k * (m - tau)))
    unfold lambda_from_mu
    positivity
  · unfold lambda_from_mu
    rw [div_lt_one (by positivity)]
    linarith [Real.exp_pos (-(k * (m - tau)))]

/-- C4: `jaccard` returns `none` iff both sets are empty; otherwise it
returns `|A ∩ B| / |A ∪ B|`, whose denominator is then provably nonzero
(the defensive `0` branch is dead); `jaccard {"a"} {"a"} = 1` and
`jaccard {"a"} {"b"} = 0`. -/
theorem jaccard_spec (a b : Finset String) :
    (jaccard a b = none ↔ a = ∅ ∧ b = ∅)
    ∧ (¬(a = ∅ ∧ b = ∅) →
        jaccard a b = some (((a ∩ b).card : ℚ) / ((a ∪ b).card : ℚ))
        ∧ (a ∪ b).card ≠ 0)
    ∧ jaccard {"a"} {"a"} = some 1
    ∧ jaccard {"a"} {"b"} = some 0 := by
  have hne1 : ¬(({"a"} : Finset String) = ∅ ∧ ({"a"} : Finset String) = ∅) := by decide
  have hi1 : (({"a"} : Finset String) ∩ {"a"}).card = 1 := by decide
  have hu1 : (({"a"} : Finset String) ∪ {"a"}).card = 1 := by decide
  have hne2 : ¬(({"a"} : Finset String) = ∅ ∧ ({"b"} : Finset String) = ∅) := by decide
  have hi2 : (({"a"} : Finset String) ∩ {"b"}).card = 0 := by decide
  have hu2 : (({"a"} : Finset String) ∪ {"b"}).card = 2 := by decide
  refine ⟨?_, ?_, by simp [jaccard, hne1, hi1, hu1], by simp [jaccard, hne2, hi2, hu2]⟩
  · unfold jaccard
    by_cases h : a = ∅ ∧ b = ∅ <;> simp [h]
  · intro h
    have hcard : (a ∪ b).card ≠ 0 := by
      rcases not_and_or.mp h with h1 | h1
      · have : a.Nonempty := Finset.nonempty_iff_ne_empty.mpr h1
        obtain ⟨x, hx⟩ := this
        exact Finset.card_ne_zero_of_mem (Finset.mem_union_left b hx)
      · have : b.Nonempty := Finset.nonempty_iff_ne_empty.mpr h1
        obtain ⟨x, hx⟩ := this
        exact Finset.card_ne_zero_of_mem (Finset.mem_union_right a hx)
    exact ⟨by simp [jaccard, h, hcard], hcard⟩

/-- Witness for C4 at `a = {"a"}`, `b = ∅`. -/
theorem jaccard_spec_witness :
    ¬(({"a"} : Finset String) = ∅ ∧ (∅ : Finset String) = ∅) ∧
      jaccard {"a"} ∅ =
        some (((({"a"} : Finset String) ∩ ∅).card : ℚ) /
          ((({"a"} : Finset String) ∪ ∅).card : ℚ)) :=
  ⟨by decide, ((jaccard_spec {"a"} ∅).2.1 (by decide)).1⟩

/-- C2 counterexample: with round-1 combined features `{"a","b"}` and
round-2 combined features `{"a"}`, the code's `revd` is `0` while the size
of the symmetric difference is `1` — the dropped feature `"b"` is not
counted. -/
theorem revd_counterexample :
    revd {"a", "b"} ∅ {"a"} ∅ = 0
    ∧ revdSymmSpec {"a", "b"} ∅ {"a"} ∅ = 1
    ∧ revd {"a", "b"} ∅ {"a"} ∅ ≠ revdSymmSpec {"a", "b"} ∅ {"a"} ∅ := by
  refine ⟨by decide, by decide, by decide⟩

/-- C2 (amended): `revd` counts exactly the features present in the round-2
combined set but not in the round-1 combined set (newly added features);
adding the count of dropped features yields the symmetric-difference size. -/
theorem revd_spec (PF1 RF1 PF2 RF2 : Finset String) :
    revd PF1 RF1 PF2 RF2 = ((PF2 ∪ RF2).filter (fun f => f ∉ PF1 ∪ RF1)).card
    ∧ revd PF1 RF1 PF2 RF2 + ((PF1 ∪ RF1) \ (PF2 ∪ RF2)).card
        = revdSymmSpec PF1 RF1 PF2 RF2
    ∧ ∀ f, f ∈ (PF2 ∪ RF2) \ (PF1 ∪ RF1) ↔ f ∈ PF2 ∪ RF2 ∧ f ∉ PF1 ∪ RF1 := by
  refine ⟨by rw [revd, Finset.sdiff_eq_filter], ?_, fun f => Finset.mem_sdiff⟩
  unfold revd revdSymmSpec
  rw [Finset.card_union_of_disjoint disjoint_sdiff_sdiff]
  ring

/-- C7: the sweep's resume filter keeps exactly the parameter tuples not in
the done set (exact tuple match), and over the task list `[T1, T2]` with
`T1` already stored, exactly the `T2` pass remains. -/
theorem sweep_resume_spec (tasks : List SweepKey) (done : Finset SweepKey)
    (T1 T2 : SweepKey) (h : T2 ≠ T1) :
    (∀ p, p ∈ todoTasks tasks done ↔ p ∈ tasks ∧ p ∉ done)
    ∧ todoTasks [T1, T2] {T1} = [T2] := by
  constructor
  · intro p
    simp [todoTasks]
  · simp [todoTasks, List.filter, h]

/-- Witness for C7 at two concrete parameter tuples differing in `tau`. -/
theorem sweep_resume_spec_witness :
    ((3/10, 3, 1/2, 4/5, 1, false) : SweepKey) ≠ (3/10, 3, 2/5, 4/5, 1, false)
    ∧ todoTasks [(3/10, 3, 2/5, 4/5, 1, false), (3/10, 3, 1/2, 4/5, 1, false)]
        {(3/10, 3, 2/5, 4/5, 1, false)} = [(3/10, 3, 1/2, 4/5, 1, false)] :=
  ⟨by norm_num [Prod.ext_iff],
    (sweep_resume_spec [] ∅ (3/10, 3, 2/5, 4/5, 1, false)
      (3/10, 3, 1/2, 4/5, 1, false) (by norm_num [Prod.ext_iff])).2⟩

/-- C3 (amended): `receive_feedback` clamps the score to `[0,1]` and stores
`(1 - beta) * old + beta * clamp(score)` for the peer, where `old` is the
previously stored value or the prior when unset; `beta = 1` stores exactly
the clamped score; `beta = 0` leaves the state unchanged for a peer that is
already set (for an unset peer it inserts the prior, so `mu` can change). -/
theorem receive_feedback_spec (st : Tracker) (p : String) (s β : ℚ) :
    lookupScore p (receive_feedback st p s β).peer_scores
      = some ((1 - β) * ((lookupScore p st.peer_scores).getD st.prior) + β * clamp01 s)
    ∧ (receive_feedback st p s β).prior = st.prior
    ∧ (β = 1 → lookupScore p (receive_feedback st p s β).peer_scores
        = some (clamp01 s))
    ∧ (∀ v, lookupScore p st.peer_scores = some v →
        receive_feedback st p s 0 = st) := by
  refine ⟨?_, rfl, ?_, ?_⟩
  · simpa [receive_feedback] using
      lookupScore_setScore_self p
        ((1 - β) * ((lookupScore p st.peer_scores).getD st.prior) + β * clamp01 s)
        st.peer_scores
  · intro hβ
    subst hβ
    simpa [receive_feedback] using
      lookupScore_setScore_self p
        ((1 - 1) * ((lookupScore p st.peer_scores).getD st.prior) + 1 * clamp01 s)
        st.peer_scores
  · intro v hvl
    have hval : (1 - (0:ℚ)) * ((lookupScore p st.peer_scores).getD st.prior)
        + 0 * clamp01 s = v := by simp [hvl]
    show { st with
        peer_scores := setScore p ((1 - (0:ℚ)) *
          ((lookupScore p st.peer_scores).getD st.prior) + 0 * clamp01 s)
          st.peer_scores } = st
    rw [hval, setScore_of_lookup_eq p v st.peer_scores hvl]

/-- Witness for C3 at a tracker whose peer `"c"` is stored with `3/4`:
`beta = 1` with score `2` stores the clamp `1`, and `beta = 0` leaves the
state unchanged. -/
theorem receive_feedback_spec_witness :
    lookupScore "c" (receive_feedback ⟨1/2, [("c", 3/4)]⟩ "c" 2 1).peer_scores
      = some (clamp01 2)
    ∧ receive_feedback ⟨1/2, [("c", 3/4)]⟩ "c" 2 0 = ⟨1/2, [("c", 3/4)]⟩ :=
  ⟨(receive_feedback_spec ⟨1/2, [("c", 3/4)]⟩ "c" 2 1).2.2.1 rfl,
    (receive_feedback_spec ⟨1/2, [("c", 3/4)]⟩ "c" 2 0).2.2.2 (3/4) rfl⟩

/-- C3 counterexample: `beta = 0` is not a no-op on the trust state — on an
empty tracker with prior `1/2`, `receive_feedback "critic" 0.3 0.0` inserts
the prior for the new peer, moving `mu` from `0` to `1/2`. -/
theorem receive_feedback_beta0_counterexample :
    receive_feedback ⟨1/2, []⟩ "critic" (3/10) 0 ≠ (⟨1/2, []⟩ : Tracker)
    ∧ mu (receive_feedback ⟨1/2, []⟩ "critic" (3/10) 0) = 1/2
    ∧ mu (⟨1/2, []⟩ : Tracker) = 0 := by
  refine ⟨?_, ?_, by simp [mu]⟩
  · intro h
    have h2 := congrArg (fun t => t.peer_scores) h
    simp [receive_feedback, setScore] at h2
  · norm_num [mu, receive_feedback, setScore, lookupScore, scoreValues, clamp01]

/-- C9: starting from any tracker whose prior and stored scores lie in
`[0,1]`, any sequence of `receive_feedback` calls with rates `beta` in
`[0,1]` (and arbitrary scores) keeps every stored peer score in `[0,1]`,
and hence `mu` in `[0,1]`. -/
theorem trust_scores_invariant (st : Tracker) (calls : List (String × ℚ × ℚ))
    (hp0 : 0 ≤ st.prior) (hp1 : st.prior ≤ 1)
    (hv : ∀ v ∈ scoreValues st.peer_scores, 0 ≤ v ∧ v ≤ 1)
    (hβ : ∀ c ∈ calls, 0 ≤ c.2.2 ∧ c.2.2 ≤ 1) :
    (∀ v ∈ scoreValues (applyFeedbacks st calls).peer_scores, 0 ≤ v ∧ v ≤ 1)
    ∧ 0 ≤ mu (applyFeedbacks st calls) ∧ mu (applyFeedbacks st calls) ≤ 1 := by
  have h := applyFeedbacks_preserves calls st hp0 hp1 hv hβ
  have hm := mu_bounds _ h.2
  exact ⟨h.2, hm.1, hm.2⟩

/-- Witness for C9: empty tracker with prior `1/2`, one feedback call with
out-of-range score `2` and rate `1/2`. -/
theorem trust_scores_invariant_witness :
    (0:ℚ) ≤ 1/2 ∧ ((1:ℚ)/2 ≤ 1) ∧
      0 ≤ mu (applyFeedbacks ⟨1/2, []⟩ [("a", 2, 1/2)])
      ∧ mu (applyFeedbacks ⟨1/2, []⟩ [("a", 2, 1/2)]) ≤ 1 :=
  ⟨by norm_num, by norm_num,
    (trust_scores_invariant ⟨1/2, []⟩ [("a", 2, 1/2)] (by norm_num) (by norm_num)
      (by intro v hv; simp [scoreValues] at hv)
      (by intro c hc; rw [List.mem_singleton] at hc; subst hc
          exact ⟨by norm_num, by norm_num⟩)).2⟩

/-- C6: with a non-empty required-key list, `call` issues exactly one
initial request; a repair request is issued iff the first reply does not
parse as a JSON object containing every required key; there is never a
third request; and the final text is the last reply, returned
unconditionally. -/
theorem call_repair_spec (keys : List String) (r1 r2 : String) (hk : keys ≠ []) :
    ((callModel keys r1 r2).1 = [r1]
        ↔ ∀ k ∈ keys, isObjWithKey (safe_json_loads r1) k = true)
    ∧ ((callModel keys r1 r2).1 = [r1, r2]
        ↔ ¬ ∀ k ∈ keys, isObjWithKey (safe_json_loads r1) k = true)
    ∧ (callModel keys r1 r2).1.length ≤ 2
    ∧ (callModel keys r1 r2).1.head? = some r1
    ∧ ((∀ k ∈ keys, isObjWithKey (safe_json_loads r1) k = true) →
        callModel keys r1 r2 = ([r1], r1))
    ∧ (¬(∀ k ∈ keys, isObjWithKey (safe_json_loads r1) k = true) →
        callModel keys r1 r2 = ([r1, r2], r2)) := by
  have hke : keys.isEmpty = false := by
    cases keys with
    | nil => exact absurd rfl hk
    | cons a l => rfl
  by_cases hg : ∀ k ∈ keys, isObjWithKey (safe_json_loads r1) k = true
  · have hm : keys.filter (fun k => !(isObjWithKey (safe_json_loads r1) k)) = [] := by
      rw [List.filter_eq_nil_iff]
      intro k hkmem
      simp [hg k hkmem]
    have hcm : callModel keys r1 r2 = ([r1], r1) := by
      simp [callModel, hke, hm]
    rw [hcm]
    exact ⟨iff_of_true rfl hg, iff_of_false (by simp) (not_not_intro hg),
      by norm_num, rfl, fun _ => rfl, fun hng => absurd hg hng⟩
  · have hm : keys.filter (fun k => !(isObjWithKey (safe_json_loads r1) k)) ≠ [] := by
      intro hnil
      exact hg (fun k hkmem => by
        have := List.filter_eq_nil_iff.mp hnil k hkmem
        simpa using this)
    have hmi : (keys.filter (fun k => !(isObjWithKey (safe_json_loads r1) k))).isEmpty
        = false := by
      rcases hcase : keys.filter (fun k => !(isObjWithKey (safe_json_loads r1) k)) with
        _ | ⟨a, l⟩
      · exact absurd hcase hm
      · rfl
    have hcm : callModel keys r1 r2 = ([r1, r2], r2) := by
      simp [callModel, hke, hmi]
    rw [hcm]
    exact ⟨iff_of_false (by simp) hg, iff_of_true rfl hg,
      by norm_num, rfl, fun hpos => absurd hpos hg, fun _ => rfl⟩

/-- Witness for C6: required key `"features"`, a first reply that is not
JSON, and a repair reply `"{}"` that still lacks the key yet is returned
as final. -/
theorem call_repair_spec_witness :
    (["features"] : List String) ≠ []
    ∧ callModel ["features"] "oops" "\x7b\x7d" = (["oops", "\x7b\x7d"], "\x7b\x7d") :=
  ⟨by decide,
    (call_repair_spec ["features"] "oops" "\x7b\x7d" (by decide)).2.2.2.2.2
      (by decide)⟩

/-- C5: `extract_features_from_json` returns the empty set on any parse
failure, non-object value, or non-list `"features"` value; on an object
with a list-valued `"features"` key (missing key defaults to the empty
list) it returns the set of normalized scalar entries; and
`extract_features_from_json '{"features":["A","a"," a "]}' = {"a"}`. -/
theorem extract_features_spec :
    (∀ s, safe_json_loads s = none → extract_features_from_json s = ∅)
    ∧ (∀ s v, safe_json_loads s = some v → (∀ kvs, v ≠ JVal.jobj kvs) →
        extract_features_from_json s = ∅)
    ∧ (∀ s kvs, safe_json_loads s = some (JVal.jobj kvs) →
        (∀ xs, pyGet kvs "features" (JVal.jarr []) ≠ JVal.jarr xs) →
        extract_features_from_json s = ∅)
    ∧ (∀ s kvs xs, safe_json_loads s = some (JVal.jobj kvs) →
        pyGet kvs "features" (JVal.jarr []) = JVal.jarr xs →
        extract_features_from_json s = (xs.filterMap featNorm).toFinset)
    ∧ extract_features_from_json "\x7b\"features\":[\"A\",\"a\",\" a \"]\x7d"
        = {"a"} := by
  refine ⟨?_, ?_, ?_, ?_, by decide⟩
  · intro s hs
    simp [extract_features_from_json, hs]
  · intro s v hs hv
    cases v with
    | jobj kvs => exact absurd rfl (hv kvs)
    | jnull => simp [extract_features_from_json, hs]
    | jbool b => simp [extract_features_from_json, hs]
    | jnum q f => simp [extract_features_from_json, hs]
    | jstr t => simp [extract_features_from_json, hs]
    | jarr xs => simp [extract_features_from_json, hs]
  · intro s kvs hs hget
    rcases hcase : pyGet kvs "features" (JVal.jarr []) with _ | b | ⟨q, f⟩ | t | xs | kvs2
    · simp [extract_features_from_json, hs, hcase]
    · simp [extract_features_from_json, hs, hcase]
    · simp [extract_features_from_json, hs, hcase]
    · simp [extract_features_from_json, hs, hcase]
    · exact absurd hcase (hget xs)
    · simp [extract_features_from_json, hs, hcase]
  · intro s kvs xs hs hget
    simp [extract_features_from_json, hs, hget]

/-- Witness for C5: a non-JSON input, a non-object input, and an object
whose `"features"` value is not a list all yield the empty set; an object
with a string-list `"features"` key yields the normalized set. -/
theorem extract_features_spec_witness :
    extract_features_from_json "not json" = ∅
    ∧ extract_features_from_json "[\"x\"]" = ∅
    ∧ extract_features_from_json "\x7b\"features\": \"x\"\x7d" = ∅
    ∧ extract_features_from_json "\x7b\"features\":[\"B\"]\x7d"
        = ([JVal.jstr "B"].filterMap featNorm).toFinset :=
  ⟨extract_features_spec.1 "not json" rfl,
    extract_features_spec.2.1 "[\"x\"]" (JVal.jarr [JVal.jstr "x"]) rfl
      (fun _kvs h => JVal.noConfusion h),
    extract_features_spec.2.2.1 "\x7b\"features\": \"x\"\x7d"
      [("features", JVal.jstr "x")] rfl
      (fun _xs h => JVal.noConfusion h),
    extract_features_spec.2.2.2.1 "\x7b\"features\":[\"B\"]\x7d"
      [("features", JVal.jarr [JVal.jstr "B"])] [JVal.jstr "B"] rfl rfl⟩

/-- C1 counterexample: `canonical_overlap "entropy tls flow"
"entropy http flow"` is `1/3`, not the claimed `2/3` — the token `"flow"`
is not in the canonical vocabulary (only `"flow_count"` is), so the
intersection is `{entropy}` and the union `{entropy, tls, http}`. -/
theorem canonical_overlap_example_counterexample :
    canonical_overlap "entropy tls flow" "entropy http flow" ≠ some (2/3)
    ∧ to_tags "entropy tls flow" = {"entropy", "tls"}
    ∧ "flow" ∉ canonTags := by
  have hne : ¬(to_tags "entropy tls flow" = ∅ ∧ to_tags "entropy http flow" = ∅) := by
    decide
  have hi : (to_tags "entropy tls flow" ∩ to_tags "entropy http flow").card = 1 := by
    decide
  have hu : (to_tags "entropy tls flow" ∪ to_tags "entropy http flow").card = 3 := by
    decide
  refine ⟨?_, by decide, by decide⟩
  simp only [canonical_overlap, hne, if_false, hi, hu]
  intro h
  rw [Option.some_inj] at h
  norm_num at h

/-- C1 (amended): the two texts tokenize and filter to `{entropy, tls}` and
`{entropy, http}`, giving intersection `{entropy}`, union
`{entropy, tls, http}`, and `canonical_overlap = 1/3`. -/
theorem canonical_overlap_example_spec :
    to_tags "entropy tls flow" = {"entropy", "tls"}
    ∧ to_tags "entropy http flow" = {"entropy", "http"}
    ∧ to_tags "entropy tls flow" ∩ to_tags "entropy http flow" = {"entropy"}
    ∧ to_tags "entropy tls flow" ∪ to_tags "entropy http flow"
        = {"entropy", "tls", "http"}
    ∧ canonical_overlap "entropy tls flow" "entropy http flow" = some (1/3)
    ∧ "flow" ∉ canonTags ∧ "flow_count" ∈ canonTags := by
  have hne : ¬(to_tags "entropy tls flow" = ∅ ∧ to_tags "entropy http flow" = ∅) := by
    decide
  have hi : (to_tags "entropy tls flow" ∩ to_tags "entropy http flow").card = 1 := by
    decide
  have hu : (to_tags "entropy tls flow" ∪ to_tags "entropy http flow").card = 3 := by
    decide
  refine ⟨by decide, by decide, by decide, by decide, ?_, by decide, by decide⟩
  simp only [canonical_overlap, hne, if_false, hi, hu]
  norm_num

end MutualInfluence
